import Mathlib

/-!
# Verification of the compress_comics per-archive transcode pipeline

Shallow embedding of the repository's pipeline code.  Three source variants
are modelled, each in its own namespace:

* `CC` — `src/src/compress_comics/comic_compressor.py` (the `ComicCompressor`
  class) together with its driver `src/src/compress_comics/compress_comics.py`;
* `TH` — `src/src/compress_comics_TheHardew/compress_comics.py`;
* `Root` — the standalone `src/compress_comics.py`.

Relative paths inside an extracted archive are modelled structurally as a
directory component list plus a (stem, suffix) decomposition of the file
name, mirroring `pathlib.Path`: `suffix` is the part of the final component
from its last dot on (so `with_suffix` replaces the `ext` field), and
`as_posix` renders `dir/…/stem ++ ext`, which is injective on such
decompositions, so entry-name string comparison is modelled by structural
equality.  Directory entries produced by `glob` are not modelled: every
`List RelPath` stands for the regular files (`is_file()`) of a tree.
-/

/-- A path relative to the extraction scratch directory (or an absolute path,
with `dir` starting at the root): directory components, file stem, and
suffix (Python `Path.suffix`, including the leading dot, empty if none). -/
structure RelPath where
  dir : List String
  stem : String
  ext : String
deriving DecidableEq

/-- Python `str.lower`, restricted to the ASCII case mapping used by the
extension comparisons in the source (character-by-character lowering). -/
def lowerStr (s : String) : String :=
  ⟨s.data.map Char.toLower⟩

/-- Python `Path.with_suffix`: replace the suffix of the final component. -/
def withSuffix (p : RelPath) (s : String) : RelPath :=
  { p with ext := s }

namespace CC

/-- `comic_compressor.ComicCompressor.__transcode`: the transcodable image
extensions, in the order the source lists them (modular images first). -/
def transcode_extensions : List String := [".png", ".gif", ".jpg", ".jpeg"]

/-- `comic_compressor.ComicCompressor.__copy_files`: the passthrough
extensions copied into the archive unchanged. -/
def copy_extensions : List String := [".txt", ".xml", ".jxl"]

/-- `comic_compressor.ComicCompressor.__check_transcoding`: the extensions
treated as transcoded during the completeness check. -/
def transcoded_extensions : List String := [".jpg", ".jpeg", ".png", ".gif"]

/-- `ComicCompressor.__clean_tmp_dir`: remove top-level `*.sfv` files and
top-level `Thumbs.db` (the two globs are non-recursive). -/
def clean_tmp_dir (files : List RelPath) : List RelPath :=
  (files.filter fun f => !(decide (f.dir = []) && decide (f.ext = ".sfv"))).filter
    fun f => !(decide (f.dir = []) && decide (f.stem = "Thumbs") && decide (f.ext = ".db"))

/-- `ComicCompressor.__transcode` image selection: one pass per extension in
`transcode_extensions`, keeping files whose lowercased suffix equals it. -/
def imageFiles (files : List RelPath) : List RelPath :=
  transcode_extensions.foldr (fun ext acc =>
    (files.filter fun f => lowerStr f.ext == ext) ++ acc) []

/-- `ComicCompressor.__copy_files`: the passthrough files appended to the
archive under their own (unchanged) names. -/
def copy_files (files : List RelPath) : List RelPath :=
  files.filter fun f => copy_extensions.contains (lowerStr f.ext)

/-- Outcome of one external `cjxl` invocation inside a worker:
`success` (zero exit, encoded bytes on stdout), `nonzeroExit`
(`subprocess.run(check=True)` raises `CalledProcessError`), or
`interrupted` (a `KeyboardInterrupt` is delivered during the encode). -/
inductive EncodeResult
  | success
  | nonzeroExit
  | interrupted
deriving DecidableEq

/-- What one worker job did: the entry name it appended under the lock (if
any) and whether an exception escaped the job body (firing the pool's
`error_callback`). -/
structure JobOutcome where
  appended : Option RelPath
  raisedToPool : Bool
deriving DecidableEq

/-- `comic_compressor._transcode_file`.  On success the `.jxl`-swapped name
is appended under the lock; `CalledProcessError` is not caught and escapes
to the pool's `error_callback`; `KeyboardInterrupt` is swallowed by the
`except KeyboardInterrupt: pass` and the job returns normally with no
append. -/
def transcode_file (enc : RelPath → EncodeResult) (input_file : RelPath) : JobOutcome :=
  match enc input_file with
  | .success => { appended := some (withSuffix input_file ".jxl"), raisedToPool := false }
  | .nonzeroExit => { appended := none, raisedToPool := true }
  | .interrupted => { appended := none, raisedToPool := false }

/-- Aggregate result of the worker pool over all dispatched jobs, in the
canonical schedule in which every job has been dispatched before the first
failure takes effect (realizable, e.g. whenever the failing encode finishes
last): `entries` are the names appended to the shared zip, `terminated`
records whether `error_handler` called `pool.terminate()`, `launches` the
encoder subprocesses started, `progressUpdates` the number of times the
completion callback `update_bar` fired. -/
structure PoolResult where
  entries : List RelPath
  terminated : Bool
  launches : List RelPath
  progressUpdates : Nat
deriving DecidableEq

/-- The `pool.apply_async` loop of `ComicCompressor.__transcode` over the
image files, under the canonical all-dispatched schedule. -/
def poolPhase (enc : RelPath → EncodeResult) : List RelPath → PoolResult
  | [] => { entries := [], terminated := false, launches := [], progressUpdates := 0 }
  | f :: fs =>
    let j := transcode_file enc f
    let r := poolPhase enc fs
    { entries := j.appended.toList ++ r.entries
      terminated := j.raisedToPool || r.terminated
      launches := f :: r.launches
      progressUpdates := (if j.raisedToPool then 0 else 1) + r.progressUpdates }

/-- `ComicCompressor.__check_transcoding` (identically
`compress_comics_TheHardew.check_transcoding`): returns `true` when the
check raises `RuntimeError('Some files were not copied …')`.  For each file
of the scratch directory, if its lowercased suffix is a transcoded
extension the name is swapped to `.jxl`; the membership test against the
zip's name list then runs only if the (possibly swapped) name `is_file()`
on disk — i.e. only if it is itself among the scratch files. -/
def check_transcoding (files : List RelPath) (zipNames : List RelPath) : Bool :=
  files.any fun file =>
    let file := if transcoded_extensions.contains (lowerStr file.ext)
      then withSuffix file ".jxl" else file
    decide (file ∈ files) && !(decide (file ∈ zipNames))

/-- Modelled from the spec: the CompletionVerifier's expected entry set —
every transcodable source path with its name codec-swapped to `.jxl`, plus
every passthrough path unchanged.  Stated from the spec's words for
comparison with `check_transcoding` above; it is not code of the repo. -/
def expected_entries (files : List RelPath) : List RelPath :=
  (files.filter fun f => transcoded_extensions.contains (lowerStr f.ext)).map
      (withSuffix · ".jxl")
    ++ files.filter fun f => copy_extensions.contains (lowerStr f.ext)

/-- The program options consumed by `ComicCompressor`: the `--overwrite`
flag (`-o`), the `--overwrite-destination` flag (`-O`), and the resolved
output directory (as absolute path components). -/
structure ProgramOptions where
  overwrite : Bool
  overwrite_destination : Bool
  output_directory : List String
deriving DecidableEq

/-- `ComicCompressor.__get_output_filename`, run during `__init__`:
with `--overwrite` the output is the input path itself; otherwise the name
is the resolved output directory extended by the input's parent (relative
to the working directory, which is how `input.dir` is represented here)
and the input's name with suffix `.cbz`; if that name exists on disk and
`--overwrite-destination` was not given, `FileExistsError` is raised. -/
def get_output_filename (onDisk : RelPath → Bool) (opts : ProgramOptions)
    (input_file : RelPath) : Except Unit RelPath :=
  if opts.overwrite then .ok input_file
  else
    let name : RelPath := ⟨opts.output_directory ++ input_file.dir, input_file.stem, ".cbz"⟩
    if onDisk name && !opts.overwrite_destination then .error () else .ok name

/-- The failure that ends a `ComicCompressor` run: `destinationExists` is
the `FileExistsError` from name resolution, `filesNotCopied` the
`RuntimeError` raised by `__check_transcoding`. -/
inductive Failure
  | destinationExists
  | filesNotCopied
deriving DecidableEq

/-- The two kinds of appends performed on the shared output zip. -/
inductive MutClass
  | workerAppend
  | copyAppend
deriving DecidableEq

/-- One append to the shared output archive, tagged with whether the
manager lock was held while performing it. -/
structure Mutation where
  op : MutClass
  name : RelPath
  lockHeld : Bool
deriving DecidableEq

/-- Full observable outcome of constructing a `ComicCompressor` and calling
`compress()` on it (canonical all-dispatched pool schedule). -/
structure RunOutcome where
  resolved : Option RelPath
  unpacked : Bool
  launches : List RelPath
  terminated : Bool
  progressUpdates : Nat
  tmpPath : Option RelPath
  writeTarget : Option RelPath
  zipEntries : List RelPath
  mutations : List Mutation
  copyRan : Bool
  checkRan : Bool
  moved : Bool
  failure : Option Failure
deriving DecidableEq

/-- `ComicCompressor.__init__` followed by `compress()`.

`__init__` resolves the output name first; a `FileExistsError` there means
the archive is never unpacked and no encoder subprocess is launched.
Otherwise `compress()` unpacks into a scratch directory, removes the noise
files, and `__transcode` runs the pool over the image files (workers append
their `.jxl` entries to `temporary_output` — a file named like the input
inside the hidden `.compressed_books…` temporary directory created in the
destination's parent — under the manager lock), then `__copy_files`
appends the passthrough files (no lock is taken there), then
`__check_transcoding` diffs the scratch tree against the zip's names, and
only if it does not raise is `temporary_output` moved onto the resolved
output name.  On a raise the temporary directory is discarded and nothing
is moved. -/
def run (onDisk : RelPath → Bool) (opts : ProgramOptions) (input_file : RelPath)
    (archiveFiles : List RelPath) (enc : RelPath → EncodeResult)
    (tmpDirName : String) : RunOutcome :=
  match get_output_filename onDisk opts input_file with
  | .error _ =>
    { resolved := none, unpacked := false, launches := [], terminated := false
      progressUpdates := 0, tmpPath := none, writeTarget := none, zipEntries := []
      mutations := [], copyRan := false, checkRan := false, moved := false
      failure := some .destinationExists }
  | .ok output_file =>
    let files := clean_tmp_dir archiveFiles
    let images := imageFiles files
    let pr := poolPhase enc images
    let tmpPath : RelPath := ⟨output_file.dir ++ [tmpDirName], input_file.stem, input_file.ext⟩
    let copied := copy_files files
    let entries := pr.entries ++ copied
    let muts := pr.entries.map (fun n => Mutation.mk .workerAppend n true)
      ++ copied.map (fun n => Mutation.mk .copyAppend n false)
    if check_transcoding files entries then
      { resolved := some output_file, unpacked := true, launches := pr.launches
        terminated := pr.terminated, progressUpdates := pr.progressUpdates
        tmpPath := some tmpPath, writeTarget := some tmpPath, zipEntries := entries
        mutations := muts, copyRan := true, checkRan := true, moved := false
        failure := some .filesNotCopied }
    else
      { resolved := some output_file, unpacked := true, launches := pr.launches
        terminated := pr.terminated, progressUpdates := pr.progressUpdates
        tmpPath := some tmpPath, writeTarget := some tmpPath, zipEntries := entries
        mutations := muts, copyRan := true, checkRan := true, moved := true
        failure := none }

/-- Outcome of one archive in `compress_comics.compress_all_comics`
(the `ComicCompressor` driver): either `compress()` returned, or it raised
some exception. -/
inductive BookOutcome
  | ok
  | raisedFailure
deriving DecidableEq

/-- `compress_comics.compress_all_comics` (driver loop).  The per-book
`compressor.compress()` call is not wrapped in any `try`: the first raised
exception propagates out of the loop (only `main` catches, and only
`KeyboardInterrupt`).  Returns the books whose compression was attempted
and whether the batch was aborted by an exception. -/
def compress_all_comics (outcome : RelPath → BookOutcome) :
    List RelPath → List RelPath × Bool
  | [] => ([], false)
  | b :: rest =>
    match outcome b with
    | .raisedFailure => ([b], true)
    | .ok =>
      let r := compress_all_comics outcome rest
      (b :: r.1, r.2)

end CC

namespace TH

/-- The flags of `compress_comics_TheHardew.parse_args`: `--overwrite` and
`--overwrite-destination` are `store_true` booleans; `output_directory`
the positional output directory. -/
structure Options where
  overwrite : Bool
  overwrite_destination : Bool
  output_directory : List String
deriving DecidableEq

/-- A Python value as compared by `==` in
`compress_comics_TheHardew.transcode`: a `bool` flag or a `str` literal. -/
inductive PyVal
  | pybool (b : Bool)
  | pystr (s : String)
deriving DecidableEq

/-- Python `==` on these values: comparisons across the two types are
always `False` (Python defines `bool == str` as unequal). -/
def pyEq : PyVal → PyVal → Bool
  | .pybool a, .pybool b => a == b
  | .pystr a, .pystr b => a == b
  | _, _ => false

/-- `compress_comics_TheHardew.transcode`: image selection in one pass. -/
def extensions : List String := [".gif", ".jpg", ".jpeg", ".png"]

/-- The image files selected by `transcode` (plain filter, no grouping). -/
def imageFiles (files : List RelPath) : List RelPath :=
  files.filter fun f => extensions.contains (lowerStr f.ext)

/-- `compress_comics_TheHardew.get_output_filename`.  With `--overwrite`
the returned path is a fresh hidden `NamedTemporaryFile` beside the source
(prefix `.` plus the input's name; `tmpName` stands for the random part);
with `--overwrite-destination` the hidden temporary is created beside the
intended destination; otherwise the final `.cbz` name itself is returned,
after raising `FileExistsError` if it already exists. -/
def get_output_filename (onDisk : RelPath → Bool) (opts : Options)
    (input_file : RelPath) (tmpName : String) : Except Unit RelPath :=
  if opts.overwrite then
    .ok ⟨input_file.dir, "." ++ input_file.stem ++ input_file.ext ++ tmpName, ""⟩
  else if opts.overwrite_destination then
    .ok ⟨opts.output_directory ++ input_file.dir,
      "." ++ input_file.stem ++ input_file.ext ++ tmpName, ""⟩
  else
    let name : RelPath := ⟨opts.output_directory ++ input_file.dir, input_file.stem, ".cbz"⟩
    if onDisk name then .error () else .ok name

/-- Observable outcome of `compress_comics_TheHardew.transcode`. -/
structure RunOutcome where
  resolvedOutput : Option RelPath
  writeTarget : Option RelPath
  zipEntries : List RelPath
  raised : Bool
  tmpUnlinked : Bool
  movePerformed : Option (RelPath × RelPath)
  returned : Option RelPath
deriving DecidableEq

/-- `compress_comics_TheHardew.transcode` (canonical all-dispatched pool
schedule).  `get_output_filename` runs first; its `FileExistsError` is
caught on the spot, printed, and `''` is returned (modelled as `returned :=
none`).  Otherwise the workers append straight to the returned
`output_file` path (this module's `transcode_file`, `copy_files` and
`check_transcoding` are textually the ones modelled in `CC`, so those
definitions are reused here); after `copy_files` and a passing
`check_transcoding`, the file is moved only under
`prog_args.overwrite == 'True'` or `prog_args.overwrite_destination ==
'True'` — comparisons of a `bool` against a `str`.  On a raise the written
`output_file` is unlinked. -/
def transcode (onDisk : RelPath → Bool) (opts : Options) (input_file : RelPath)
    (files : List RelPath) (enc : RelPath → CC.EncodeResult)
    (tmpName : String) : RunOutcome :=
  match get_output_filename onDisk opts input_file tmpName with
  | .error _ =>
    { resolvedOutput := none, writeTarget := none, zipEntries := [], raised := false
      tmpUnlinked := false, movePerformed := none, returned := none }
  | .ok output_file =>
    let images := imageFiles files
    let pr := CC.poolPhase enc images
    let copied := CC.copy_files files
    let entries := pr.entries ++ copied
    if CC.check_transcoding files entries then
      { resolvedOutput := some output_file, writeTarget := some output_file
        zipEntries := entries, raised := true, tmpUnlinked := true
        movePerformed := none, returned := none }
    else
      let dest : RelPath := ⟨opts.output_directory ++ input_file.dir, input_file.stem, ".cbz"⟩
      let movePerformed :=
        if pyEq (.pybool opts.overwrite) (.pystr "True") then some (output_file, input_file)
        else if pyEq (.pybool opts.overwrite_destination) (.pystr "True") then
          some (output_file, dest)
        else none
      let returned :=
        if pyEq (.pybool opts.overwrite) (.pystr "True") then some input_file
        else if pyEq (.pybool opts.overwrite_destination) (.pystr "True") then some dest
        else some output_file
      { resolvedOutput := some output_file, writeTarget := some output_file
        zipEntries := entries, raised := false, tmpUnlinked := false
        movePerformed := movePerformed, returned := returned }

/-- Outcome of one archive in `compress_comics_TheHardew.compress_all_comics`:
compression returned normally, the destination already existed (the
`FileExistsError` is caught *inside* `transcode`, which returns `''`), or
some other exception was raised. -/
inductive BookOutcome
  | ok
  | destinationExists
  | raisedFailure
deriving DecidableEq

/-- `compress_comics_TheHardew.compress_all_comics`: the loop body wraps
`compress_comic` in `try: … except: raise`, so any raised exception still
propagates and aborts the batch; a destination collision was already
absorbed inside `transcode` and the loop continues. -/
def compress_all_comics (outcome : RelPath → BookOutcome) :
    List RelPath → List RelPath × Bool
  | [] => ([], false)
  | b :: rest =>
    match outcome b with
    | .raisedFailure => ([b], true)
    | _ =>
      let r := compress_all_comics outcome rest
      (b :: r.1, r.2)

end TH

namespace Root

/-- `compress_comics.check_file_types` recognized extensions. -/
def extensions : List String := [".gif", ".jpg", ".jpeg", ".png", ".jxl", ".xml", ".txt"]

/-- `compress_comics.transcode` image extensions (standalone variant). -/
def transcode_extensions : List String := [".gif", ".jpg", ".jpeg", ".png"]

/-- `compress_comics.check_file_types`: collect the files whose lowercased
suffix is not recognized; a non-empty list means `error_exit` (the run of
that archive stops with exit code 1). -/
def check_file_types (files : List RelPath) : Bool :=
  ((files.filter fun f => !(extensions.contains (lowerStr f.ext))).length) != 0

/-- Observable outcome of `compress_comics.compress_comic` (standalone
variant) up to the transcode phase. -/
structure RunOutcome where
  exitedAtTypeCheck : Bool
  launches : List RelPath
  packed : Bool
deriving DecidableEq

/-- `compress_comics.compress_comic` (standalone variant), control flow up
to `pack`: unpack, `clean_tmp_dir` (textually the one modelled in `CC`),
then `check_file_types` *before* `transcode` — so an unrecognized extension
exits before any `cjxl` subprocess is launched; otherwise the pool launches
one encode per image file and the archive is packed. -/
def compress_comic (archiveFiles : List RelPath) : RunOutcome :=
  let files := CC.clean_tmp_dir archiveFiles
  if check_file_types files then
    { exitedAtTypeCheck := true, launches := [], packed := false }
  else
    { exitedAtTypeCheck := false
      launches := files.filter fun f => transcode_extensions.contains (lowerStr f.ext)
      packed := true }

/-- Observable outcome of `compress_comics.pack` (standalone variant). -/
structure PackOutcome where
  archiveWrittenAt : RelPath
  movedTo : Option RelPath
  tmpRemains : Bool
  raised : Bool
deriving DecidableEq

/-- `compress_comics.pack` (standalone variant).  With `--overwrite` the
archive is created into a hidden `NamedTemporaryFile` beside the source
(prefix `.` plus the input's name) and then moved onto the original path;
the context manager's deletion of the already-moved temporary raises
`FileNotFoundError`, which is caught, so nothing of the temporary remains.
If creating the archive fails (`createOk = false`) the context manager
deletes the temporary and the exception propagates.  Without `--overwrite`
the archive is created directly at the output name. -/
def pack (createOk : Bool) (overwrite : Bool) (output_directory : List String)
    (input_file : RelPath) (tmpName : String) : PackOutcome :=
  if overwrite then
    let tmp : RelPath := ⟨input_file.dir, "." ++ input_file.stem ++ input_file.ext ++ tmpName, ""⟩
    if createOk then
      { archiveWrittenAt := tmp, movedTo := some input_file, tmpRemains := false
        raised := false }
    else
      { archiveWrittenAt := tmp, movedTo := none, tmpRemains := false, raised := true }
  else
    { archiveWrittenAt := ⟨output_directory ++ input_file.dir, input_file.stem, ".cbz"⟩
      movedTo := none, tmpRemains := false, raised := !createOk }

end Root

/-! ## Sample concrete inputs used by the closed theorems below -/

/-- A sample image file `a.jpg` at the top of the scratch tree. -/
def aJpg : RelPath := ⟨[], "a", ".jpg"⟩

/-- A sample image file `a.png` (same stem as `aJpg`). -/
def aPng : RelPath := ⟨[], "a", ".png"⟩

/-- A sample image file `b.jpg`. -/
def bJpg : RelPath := ⟨[], "b", ".jpg"⟩

/-- A sample image file `b.png`. -/
def bPng : RelPath := ⟨[], "b", ".png"⟩

/-- The codec-swapped name shared by `aJpg` and `aPng`. -/
def aJxl : RelPath := ⟨[], "a", ".jxl"⟩

/-- A sample passthrough file `notes.txt`. -/
def notesTxt : RelPath := ⟨[], "notes", ".txt"⟩

/-- A sample image file `cover.jpg`. -/
def coverJpg : RelPath := ⟨[], "cover", ".jpg"⟩

/-- A sample unsupported file `bad.docx`. -/
def badDocx : RelPath := ⟨[], "bad", ".docx"⟩

/-- A sample input archive `A.cbz` (relative to the working directory). -/
def inpA : RelPath := ⟨[], "A", ".cbz"⟩

/-- A second sample input archive `B.cbz`. -/
def inpB : RelPath := ⟨[], "B", ".cbz"⟩

/-- Plain output-directory options: no overwrite flags, output under `out`. -/
def optsPlain : CC.ProgramOptions := ⟨false, false, ["out"]⟩

/-- An encoder oracle that fails (nonzero exit) exactly on `b.jpg`. -/
def encFailB : RelPath → CC.EncodeResult :=
  fun f => if f = bJpg then .nonzeroExit else .success

/-- An encoder oracle that always succeeds. -/
def encOk : RelPath → CC.EncodeResult := fun _ => .success

/-- An encoder oracle interrupted exactly on `a.jpg`, succeeding elsewhere. -/
def encIntA : RelPath → CC.EncodeResult :=
  fun f => if f = aJpg then .interrupted else .success

/-! ## Helper lemmas about the pool phase and the completeness check -/

/-- The entries appended during the pool phase are exactly the
`.jxl`-swapped names of the images whose encode succeeded. -/
theorem poolPhase_entries (enc : RelPath → CC.EncodeResult) (l : List RelPath) :
    (CC.poolPhase enc l).entries
      = (l.filter fun f => enc f == CC.EncodeResult.success).map (withSuffix · ".jxl") := by
  induction l with
  | nil => rfl
  | cons f fs ih =>
    cases h : enc f <;>
      simp [CC.poolPhase, CC.transcode_file, h, ih, List.filter_cons]

/-- The pool is terminated iff some dispatched encode exited nonzero. -/
theorem poolPhase_terminated (enc : RelPath → CC.EncodeResult) (l : List RelPath) :
    (CC.poolPhase enc l).terminated
      = l.any fun f => enc f == CC.EncodeResult.nonzeroExit := by
  induction l with
  | nil => rfl
  | cons f fs ih =>
    cases h : enc f <;> simp [CC.poolPhase, CC.transcode_file, h, ih]

/-- Every dispatched job launches one encoder subprocess. -/
theorem poolPhase_launches (enc : RelPath → CC.EncodeResult) (l : List RelPath) :
    (CC.poolPhase enc l).launches = l := by
  induction l with
  | nil => rfl
  | cons f fs ih => simp [CC.poolPhase, ih]

/-- When no encode exits nonzero, the completion callback fires once per
dispatched job (interrupted jobs included). -/
theorem poolPhase_progress (enc : RelPath → CC.EncodeResult) (l : List RelPath)
    (h : ∀ f ∈ l, enc f ≠ CC.EncodeResult.nonzeroExit) :
    (CC.poolPhase enc l).progressUpdates = l.length := by
  induction l with
  | nil => rfl
  | cons f fs ih =>
    have hf := h f (List.mem_cons_self f fs)
    have hfs := ih fun x hx => h x (List.mem_cons_of_mem f hx)
    cases hfe : enc f with
    | nonzeroExit => exact absurd hfe hf
    | success =>
      simp [CC.poolPhase, CC.transcode_file, hfe, hfs]
      omega
    | interrupted =>
      simp [CC.poolPhase, CC.transcode_file, hfe, hfs]
      omega

/-- Every name appended by a worker carries the `.jxl` suffix. -/
theorem ext_of_mem_poolPhase_entries (enc : RelPath → CC.EncodeResult) (l : List RelPath)
    (x : RelPath) (hx : x ∈ (CC.poolPhase enc l).entries) : x.ext = ".jxl" := by
  rw [poolPhase_entries] at hx
  rcases List.mem_map.1 hx with ⟨f, -, rfl⟩
  rfl

/-- Every passthrough file copied in has a recognized passthrough suffix. -/
theorem mem_copy_files (files : List RelPath) (x : RelPath) (hx : x ∈ CC.copy_files files) :
    CC.copy_extensions.contains (lowerStr x.ext) = true :=
  (List.mem_filter.1 hx).2

/-- If the scratch tree still holds a file whose suffix is neither
transcodable nor passthrough, and every zip entry is either `.jxl`-suffixed
or passthrough-suffixed, then `check_transcoding` raises. -/
theorem check_transcoding_unsupported (files entries : List RelPath) (f : RelPath)
    (hf : f ∈ files)
    (h1 : CC.transcoded_extensions.contains (lowerStr f.ext) = false)
    (h2 : CC.copy_extensions.contains (lowerStr f.ext) = false)
    (hent : ∀ x ∈ entries,
      x.ext = ".jxl" ∨ CC.copy_extensions.contains (lowerStr x.ext) = true) :
    CC.check_transcoding files entries = true := by
  have hfe : f ∉ entries := by
    intro hmem
    rcases hent f hmem with hj | hc
    · rw [hj] at h2
      exact absurd h2 (by decide)
    · rw [hc] at h2
      cases h2
  have h1m : lowerStr f.ext ∉ CC.transcoded_extensions := by simpa using h1
  unfold CC.check_transcoding
  rw [List.any_eq_true]
  exact ⟨f, hf, by simp [h1m, hf, hfe]⟩

/-! ## Claim theorems -/

/-- C1: the completeness check is claimed to raise iff some expected output
entry (codec-swapped transcodables plus unchanged passthroughs) is missing
from the output archive.  In the code the swapped `.jxl` name is re-tested
with `is_file()` — it never exists in the scratch tree, so a missing
`a.jxl` entry raises nothing: here `a.jxl` is expected, the archive name
list is empty, and `check_transcoding` still returns without raising. -/
theorem check_vacuous_for_missing_jxl :
    CC.check_transcoding [aJpg] [] = false
  ∧ aJxl ∈ CC.expected_entries [aJpg]
  ∧ aJxl ∉ ([] : List RelPath) := by decide

/-- C3: with `a.jpg` encoding fine and `b.jpg` exiting nonzero (all jobs
dispatched, the failure finishing last), the pool is terminated, but the
vacuous completeness check passes, no failure is recorded, and the
incomplete archive (missing `b.jxl`) is still moved to the final
destination — contradicting the claim that the archive's compression fails
and no file exists at the destination. -/
theorem encode_failure_still_places_output :
    (CC.run (fun _ => false) optsPlain inpA [aJpg, bJpg] encFailB "tmp0").terminated = true
  ∧ (CC.run (fun _ => false) optsPlain inpA [aJpg, bJpg] encFailB "tmp0").failure = none
  ∧ (CC.run (fun _ => false) optsPlain inpA [aJpg, bJpg] encFailB "tmp0").moved = true
  ∧ withSuffix bJpg ".jxl"
      ∉ (CC.run (fun _ => false) optsPlain inpA [aJpg, bJpg] encFailB "tmp0").zipEntries := by
  decide

/-- C5: in overwrite-source mode of the TheHardew variant, a successful run
resolves the output to the hidden temporary beside the source, but the
final move is guarded by `prog_args.overwrite == 'True'` — a `bool`
compared against a `str`, always false — so no move is performed, the
temporary remains (it is even returned as the result name) and the source
is never replaced.  The standalone variant's `pack` shows the intended
behaviour: the archive is written to the hidden temporary and moved onto
the original, nothing of the temporary remaining. -/
theorem overwrite_source_move_skipped :
    (TH.transcode (fun _ => false) ⟨true, false, []⟩ inpA [aJpg] encOk "rnd0").raised = false
  ∧ (TH.transcode (fun _ => false) ⟨true, false, []⟩ inpA [aJpg] encOk "rnd0").movePerformed = none
  ∧ (TH.transcode (fun _ => false) ⟨true, false, []⟩ inpA [aJpg] encOk "rnd0").resolvedOutput
      = some ⟨[], ".A.cbzrnd0", ""⟩
  ∧ (TH.transcode (fun _ => false) ⟨true, false, []⟩ inpA [aJpg] encOk "rnd0").returned
      = some ⟨[], ".A.cbzrnd0", ""⟩
  ∧ (Root.pack true true ["out"] inpA "rnd0").movedTo = some inpA
  ∧ (Root.pack true true ["out"] inpA "rnd0").tmpRemains = false := by decide

/-- C2 counterexample: in the TheHardew variant's plain output mode the
resolved final `.cbz` name itself is handed to the workers, which append
the archive incrementally right at the destination path; the successful
run performs no move at all, so a file appears at the final destination
path other than via an atomic rename — contradicting the claim. -/
theorem th_destination_written_without_move :
    (TH.transcode (fun _ => false) ⟨false, false, ["out"]⟩ inpA [aJpg] encOk "rnd0").writeTarget
      = some ⟨["out"], "A", ".cbz"⟩
  ∧ (TH.transcode (fun _ => false) ⟨false, false, ["out"]⟩ inpA [aJpg] encOk "rnd0").zipEntries
      = [aJxl]
  ∧ (TH.transcode (fun _ => false) ⟨false, false, ["out"]⟩ inpA [aJpg] encOk "rnd0").movePerformed
      = none
  ∧ (TH.transcode (fun _ => false) ⟨false, false, ["out"]⟩ inpA [aJpg] encOk "rnd0").raised
      = false := by decide

/-- C4 counterexample: an archive holding `cover.jpg` and the unsupported
`bad.docx` is not rejected up front by the `ComicCompressor` pipeline —
there is no pre-encoding type check — so the encoder subprocess for
`cover.jpg` is launched; the unsupported file is only caught afterwards by
`__check_transcoding` (a `RuntimeError`, not an `UnsupportedFileType`
before encoding), contradicting the claim's "before any encoder subprocess
is launched". -/
theorem encoder_launched_despite_unsupported :
    (CC.run (fun _ => false) optsPlain inpA [coverJpg, badDocx] encOk "tmp0").launches
      = [coverJpg]
  ∧ (CC.run (fun _ => false) optsPlain inpA [coverJpg, badDocx] encOk "tmp0").failure
      = some .filesNotCopied
  ∧ (CC.run (fun _ => false) optsPlain inpA [coverJpg, badDocx] encOk "tmp0").moved
      = false := by decide

/-- C6 counterexample: in the `ComicCompressor` driver, a batch of two
archives whose first compression raises stops right there: the failure is
not caught at the batch boundary, the second archive is never processed —
contradicting the claim that processing continues. -/
theorem batch_aborted_by_first_failure :
    CC.compress_all_comics
        (fun b => if b = inpA then CC.BookOutcome.raisedFailure else CC.BookOutcome.ok)
        [inpA, inpB]
      = ([inpA], true) := by decide

/-- C8 counterexample: `a.jpg` and `a.png` both map to the entry name
`a.jxl`, and the workers append both — the name list of the output archive
holds `a.jxl` twice, contradicting the claim that appended entry names are
always pairwise distinct. -/
theorem duplicate_name_appended_twice :
    (CC.run (fun _ => false) optsPlain inpA [aJpg, aPng] encOk "tmp0").zipEntries
      = [aJxl, aJxl]
  ∧ ¬ (CC.run (fun _ => false) optsPlain inpA [aJpg, aPng] encOk "tmp0").zipEntries.Nodup := by
  decide

/-- C9 counterexample: the orchestrator's passthrough copy
(`__copy_files`) appends to the shared archive without taking the lock: a
run whose only mutation is the copy of `notes.txt` has a mutation with
`lockHeld = false`, contradicting the claim that every mutation happens
while holding the lock. -/
theorem copy_files_append_without_lock :
    (CC.run (fun _ => false) optsPlain inpA [notesTxt] encOk "tmp0").mutations
      = [⟨.copyAppend, notesTxt, false⟩]
  ∧ ¬ (∀ m ∈ (CC.run (fun _ => false) optsPlain inpA [notesTxt] encOk "tmp0").mutations,
        m.lockHeld = true) := by decide

/-- A path inside the hidden temporary directory differs from the resolved
output path: its directory list has one extra component. -/
theorem hidden_tmp_dir_ne (out : RelPath) (tmpd stem ext : String) :
    (RelPath.mk (out.dir ++ [tmpd]) stem ext) ≠ out := by
  intro h
  have h2 := congrArg (fun p => p.dir.length) h
  simp at h2

/-- The standalone variant's recognized extensions are exactly the
transcodable ones plus the passthrough ones. -/
theorem mem_root_extensions (s : String) :
    s ∈ Root.extensions ↔ s ∈ CC.transcoded_extensions ∨ s ∈ CC.copy_extensions := by
  simp [Root.extensions, CC.transcoded_extensions, CC.copy_extensions]
  tauto

/-- A file with an unrecognized suffix makes the standalone variant's
pre-encoding type check fail. -/
theorem check_file_types_true_of_unsupported (files : List RelPath) (f : RelPath)
    (hf : f ∈ files)
    (h1 : CC.transcoded_extensions.contains (lowerStr f.ext) = false)
    (h2 : CC.copy_extensions.contains (lowerStr f.ext) = false) :
    Root.check_file_types files = true := by
  have h1m : lowerStr f.ext ∉ CC.transcoded_extensions := by simpa using h1
  have h2m : lowerStr f.ext ∉ CC.copy_extensions := by simpa using h2
  have hmem : f ∈ files.filter fun g => !(Root.extensions.contains (lowerStr g.ext)) := by
    rw [List.mem_filter]
    refine ⟨hf, ?_⟩
    simp [mem_root_extensions, h1m, h2m]
  unfold Root.check_file_types
  rcases hq : files.filter fun g => !(Root.extensions.contains (lowerStr g.ext)) with - | ⟨x, xs⟩
  · rw [hq] at hmem
    cases hmem
  · rw [hq]
    rfl

/-- C2 (amended): in the `ComicCompressor` variant placement is atomic —
all zip appends target `temporary_output` inside the hidden temporary
directory, which differs from the resolved destination; the single move
happens exactly when no failure occurred, and any failing exit performs no
move, leaving the destination untouched. -/
theorem cc_placement_only_via_move (onDisk : RelPath → Bool) (opts : CC.ProgramOptions)
    (input_file : RelPath) (archiveFiles : List RelPath)
    (enc : RelPath → CC.EncodeResult) (tmpd : String) :
    ((CC.run onDisk opts input_file archiveFiles enc tmpd).moved = true
      ↔ (CC.run onDisk opts input_file archiveFiles enc tmpd).failure = none)
  ∧ (CC.run onDisk opts input_file archiveFiles enc tmpd).writeTarget
      = (CC.run onDisk opts input_file archiveFiles enc tmpd).tmpPath
  ∧ ∀ out, (CC.run onDisk opts input_file archiveFiles enc tmpd).resolved = some out →
      (CC.run onDisk opts input_file archiveFiles enc tmpd).tmpPath
          = some ⟨out.dir ++ [tmpd], input_file.stem, input_file.ext⟩
        ∧ (CC.run onDisk opts input_file archiveFiles enc tmpd).tmpPath ≠ some out := by
  rcases hres : CC.get_output_filename onDisk opts input_file with e | out0
  · simp [CC.run, hres]
  · cases hc : CC.check_transcoding (CC.clean_tmp_dir archiveFiles)
        ((CC.poolPhase enc (CC.imageFiles (CC.clean_tmp_dir archiveFiles))).entries
          ++ CC.copy_files (CC.clean_tmp_dir archiveFiles)) <;>
      simp [CC.run, hres, hc, hidden_tmp_dir_ne]

/-- C2 witness: a concrete run resolving to `out/A.cbz` has its temporary
output at a different path than the destination. -/
theorem cc_placement_only_via_move_witness :
    (CC.run (fun _ => false) optsPlain inpA [aJpg] encOk "tmp0").tmpPath
      ≠ some ⟨["out"], "A", ".cbz"⟩ :=
  ((cc_placement_only_via_move (fun _ => false) optsPlain inpA [aJpg] encOk "tmp0").2.2
    ⟨["out"], "A", ".cbz"⟩ (by decide)).2

/-- C4 (amended): an unsupported file (suffix neither transcodable nor
passthrough) surviving noise removal does make the archive's compression
fail with no destination placed — but in the `ComicCompressor` pipeline
only at the post-pool verification step (`RuntimeError` from
`__check_transcoding`), after the encoders have already been dispatched;
the pre-encoding `UnsupportedFileType` rejection exists only in the
standalone variant, whose `check_file_types` runs before `transcode`, so
there no encoder is ever launched. -/
theorem unsupported_file_late_failure (onDisk : RelPath → Bool) (opts : CC.ProgramOptions)
    (input_file out : RelPath) (archiveFiles : List RelPath)
    (enc : RelPath → CC.EncodeResult) (tmpd : String) (f : RelPath)
    (hres : CC.get_output_filename onDisk opts input_file = .ok out)
    (hf : f ∈ CC.clean_tmp_dir archiveFiles)
    (h1 : CC.transcoded_extensions.contains (lowerStr f.ext) = false)
    (h2 : CC.copy_extensions.contains (lowerStr f.ext) = false) :
    (CC.run onDisk opts input_file archiveFiles enc tmpd).failure
        = some CC.Failure.filesNotCopied
  ∧ (CC.run onDisk opts input_file archiveFiles enc tmpd).moved = false
  ∧ Root.check_file_types (CC.clean_tmp_dir archiveFiles) = true
  ∧ (Root.compress_comic archiveFiles).exitedAtTypeCheck = true
  ∧ (Root.compress_comic archiveFiles).launches = [] := by
  have hent : ∀ x ∈ (CC.poolPhase enc (CC.imageFiles (CC.clean_tmp_dir archiveFiles))).entries
      ++ CC.copy_files (CC.clean_tmp_dir archiveFiles),
      x.ext = ".jxl" ∨ CC.copy_extensions.contains (lowerStr x.ext) = true := by
    intro x hx
    rcases List.mem_append.1 hx with hx | hx
    · exact Or.inl (ext_of_mem_poolPhase_entries _ _ _ hx)
    · exact Or.inr (mem_copy_files _ _ hx)
  have hchk := check_transcoding_unsupported (CC.clean_tmp_dir archiveFiles) _ f hf h1 h2 hent
  have hty := check_file_types_true_of_unsupported (CC.clean_tmp_dir archiveFiles) f hf h1 h2
  refine ⟨?_, ?_, hty, ?_, ?_⟩ <;>
    simp [CC.run, Root.compress_comic, hres, hchk, hty]

/-- C4 witness: the amended statement at the `cover.jpg` + `bad.docx`
archive — the late verification failure fires, nothing is moved, and the
standalone variant's pre-check rejects the same tree with no launches. -/
theorem unsupported_file_late_failure_witness :
    (CC.run (fun _ => false) optsPlain inpA [coverJpg, badDocx] encOk "tmp0").failure
        = some CC.Failure.filesNotCopied
  ∧ (CC.run (fun _ => false) optsPlain inpA [coverJpg, badDocx] encOk "tmp0").moved = false
  ∧ Root.check_file_types (CC.clean_tmp_dir [coverJpg, badDocx]) = true
  ∧ (Root.compress_comic [coverJpg, badDocx]).exitedAtTypeCheck = true
  ∧ (Root.compress_comic [coverJpg, badDocx]).launches = [] :=
  unsupported_file_late_failure (fun _ => false) optsPlain inpA ⟨["out"], "A", ".cbz"⟩
    [coverJpg, badDocx] encOk "tmp0" badDocx rfl (by decide) (by decide) (by decide)

/-- C6 (amended): per-archive failures are not caught at the batch-runner
boundary: the first archive whose compression raises aborts the batch,
leaving the archives after it unprocessed (only `main` catches, and only
`KeyboardInterrupt`).  Only in the TheHardew variant is the
destination-exists case absorbed — inside `transcode`, which prints the
error and returns — so batches whose archives at worst hit that case run
to completion. -/
theorem per_archive_failure_propagates (outcome : RelPath → CC.BookOutcome)
    (outcomeTh : RelPath → TH.BookOutcome) (l1 l2 l : List RelPath) (a : RelPath)
    (h1 : ∀ x ∈ l1, outcome x = CC.BookOutcome.ok)
    (ha : outcome a = CC.BookOutcome.raisedFailure)
    (hth : ∀ x ∈ l, outcomeTh x ≠ TH.BookOutcome.raisedFailure) :
    CC.compress_all_comics outcome (l1 ++ a :: l2) = (l1 ++ [a], true)
  ∧ TH.compress_all_comics outcomeTh l = (l, false) := by
  constructor
  · induction l1 with
    | nil => simp [CC.compress_all_comics, ha]
    | cons x xs ih =>
      have hx := h1 x (List.mem_cons_self x xs)
      have := ih fun y hy => h1 y (List.mem_cons_of_mem x hy)
      simp [CC.compress_all_comics, hx, this]
  · induction l with
    | nil => rfl
    | cons x xs ih =>
      have hx := hth x (List.mem_cons_self x xs)
      have hxs := ih fun y hy => hth y (List.mem_cons_of_mem x hy)
      cases hcx : outcomeTh x with
      | raisedFailure => exact absurd hcx hx
      | ok => simp [TH.compress_all_comics, hcx, hxs]
      | destinationExists => simp [TH.compress_all_comics, hcx, hxs]

/-- C6 witness: a concrete two-archive batch whose second archive raises is
cut short right after it, and a TheHardew batch whose single archive only
hits the destination-exists case runs to completion. -/
theorem per_archive_failure_propagates_witness :
    CC.compress_all_comics
        (fun b => if b = inpB then CC.BookOutcome.raisedFailure else CC.BookOutcome.ok)
        ([inpA] ++ inpB :: []) = ([inpA] ++ [inpB], true)
  ∧ TH.compress_all_comics (fun _ => TH.BookOutcome.destinationExists) [inpA]
      = ([inpA], false) :=
  per_archive_failure_propagates
    (fun b => if b = inpB then CC.BookOutcome.raisedFailure else CC.BookOutcome.ok)
    (fun _ => TH.BookOutcome.destinationExists) [inpA] [] [inpA] inpB
    (by decide) (by decide) (by decide)

/-- C7: when the resolved output name already exists on disk and neither
overwrite flag is given, `ComicCompressor.__init__` raises
`FileExistsError` during name resolution: the archive is never unpacked
and no encoder subprocess is launched. -/
theorem destination_exists_before_any_work (onDisk : RelPath → Bool)
    (opts : CC.ProgramOptions) (input_file : RelPath) (archiveFiles : List RelPath)
    (enc : RelPath → CC.EncodeResult) (tmpd : String)
    (h1 : opts.overwrite = false) (h2 : opts.overwrite_destination = false)
    (h3 : onDisk ⟨opts.output_directory ++ input_file.dir, input_file.stem, ".cbz"⟩ = true) :
    (CC.run onDisk opts input_file archiveFiles enc tmpd).failure
        = some CC.Failure.destinationExists
  ∧ (CC.run onDisk opts input_file archiveFiles enc tmpd).unpacked = false
  ∧ (CC.run onDisk opts input_file archiveFiles enc tmpd).launches = [] := by
  have hres : CC.get_output_filename onDisk opts input_file = .error () := by
    unfold CC.get_output_filename
    simp [h1, h2, h3]
  simp [CC.run, hres]

/-- C7 witness: a concrete collision (`out/A.cbz` present, no overwrite
flags) fails with the destination-exists error, unpacking nothing and
launching nothing. -/
theorem destination_exists_before_any_work_witness :
    (CC.run (fun _ => true) optsPlain inpA [aJpg] encOk "tmp0").failure
        = some CC.Failure.destinationExists
  ∧ (CC.run (fun _ => true) optsPlain inpA [aJpg] encOk "tmp0").unpacked = false
  ∧ (CC.run (fun _ => true) optsPlain inpA [aJpg] encOk "tmp0").launches = [] :=
  destination_exists_before_any_work (fun _ => true) optsPlain inpA [aJpg] encOk "tmp0"
    rfl rfl rfl

/-- C8 (amended): the appended entry names are the `.jxl`-swapped names of
the successfully encoded images followed by the passthrough names; nothing
deduplicates them, so they are pairwise distinct exactly when that
candidate list is — two distinct sources colliding on their swapped name
(such as `a.jpg` and `a.png`) produce a duplicate append.  Whenever the
candidate list is duplicate-free, so are the appended names. -/
theorem entries_nodup_of_nodup_expected (onDisk : RelPath → Bool)
    (opts : CC.ProgramOptions) (input_file : RelPath) (archiveFiles : List RelPath)
    (enc : RelPath → CC.EncodeResult) (tmpd : String)
    (h : (((CC.imageFiles (CC.clean_tmp_dir archiveFiles)).map (withSuffix · ".jxl"))
        ++ CC.copy_files (CC.clean_tmp_dir archiveFiles)).Nodup) :
    (CC.run onDisk opts input_file archiveFiles enc tmpd).zipEntries.Nodup := by
  rcases hres : CC.get_output_filename onDisk opts input_file with e | out0
  · simp [CC.run, hres]
  · have hsub : List.Sublist
        ((CC.poolPhase enc (CC.imageFiles (CC.clean_tmp_dir archiveFiles))).entries
          ++ CC.copy_files (CC.clean_tmp_dir archiveFiles))
        (((CC.imageFiles (CC.clean_tmp_dir archiveFiles)).map (withSuffix · ".jxl"))
          ++ CC.copy_files (CC.clean_tmp_dir archiveFiles)) := by
      refine List.Sublist.append ?_ (List.Sublist.refl _)
      rw [poolPhase_entries]
      exact (List.filter_sublist _).map _
    have hnd := h.sublist hsub
    cases hc : CC.check_transcoding (CC.clean_tmp_dir archiveFiles)
        ((CC.poolPhase enc (CC.imageFiles (CC.clean_tmp_dir archiveFiles))).entries
          ++ CC.copy_files (CC.clean_tmp_dir archiveFiles)) <;>
      simpa [CC.run, hres, hc] using hnd

/-- C8 witness: for a tree without name collisions (`a.jpg`, `b.png`,
`notes.txt`) the appended names are pairwise distinct. -/
theorem entries_nodup_of_nodup_expected_witness :
    (CC.run (fun _ => false) optsPlain inpA [aJpg, bPng, notesTxt] encOk "tmp0").zipEntries.Nodup :=
  entries_nodup_of_nodup_expected (fun _ => false) optsPlain inpA [aJpg, bPng, notesTxt]
    encOk "tmp0" (by decide)

/-- C9 (amended): each worker append happens while holding the manager
lock (the `with lock:` block, released on every exit path); the
orchestrator's passthrough copy takes no lock, but it runs only after the
pool has joined, so the mutation trace is all the locked worker appends
followed by all the unlocked copy appends — no two appends to the same
archive interleave. -/
theorem mutations_worker_locked_then_copy (onDisk : RelPath → Bool)
    (opts : CC.ProgramOptions) (input_file : RelPath) (archiveFiles : List RelPath)
    (enc : RelPath → CC.EncodeResult) (tmpd : String) :
    ∃ w c, (CC.run onDisk opts input_file archiveFiles enc tmpd).mutations = w ++ c
      ∧ (∀ m ∈ w, m.op = CC.MutClass.workerAppend ∧ m.lockHeld = true)
      ∧ (∀ m ∈ c, m.op = CC.MutClass.copyAppend ∧ m.lockHeld = false) := by
  rcases hres : CC.get_output_filename onDisk opts input_file with e | out0
  · exact ⟨[], [], by simp [CC.run, hres], by simp, by simp⟩
  · refine ⟨(CC.poolPhase enc (CC.imageFiles (CC.clean_tmp_dir archiveFiles))).entries.map
        (fun n => CC.Mutation.mk .workerAppend n true),
      (CC.copy_files (CC.clean_tmp_dir archiveFiles)).map
        (fun n => CC.Mutation.mk .copyAppend n false), ?_, ?_, ?_⟩
    · cases hc : CC.check_transcoding (CC.clean_tmp_dir archiveFiles)
          ((CC.poolPhase enc (CC.imageFiles (CC.clean_tmp_dir archiveFiles))).entries
            ++ CC.copy_files (CC.clean_tmp_dir archiveFiles)) <;>
        simp [CC.run, hres, hc]
    · intro m hm
      rcases List.mem_map.1 hm with ⟨n, -, rfl⟩
      exact ⟨rfl, rfl⟩
    · intro m hm
      rcases List.mem_map.1 hm with ⟨n, -, rfl⟩
      exact ⟨rfl, rfl⟩

/-- C9 witness: the phased-trace decomposition at a concrete run holding
one image and one passthrough file. -/
theorem mutations_worker_locked_then_copy_witness :
    ∃ w c, (CC.run (fun _ => false) optsPlain inpA [aJpg, notesTxt] encOk "tmp0").mutations
        = w ++ c
      ∧ (∀ m ∈ w, m.op = CC.MutClass.workerAppend ∧ m.lockHeld = true)
      ∧ (∀ m ∈ c, m.op = CC.MutClass.copyAppend ∧ m.lockHeld = false) :=
  mutations_worker_locked_then_copy (fun _ => false) optsPlain inpA [aJpg, notesTxt]
    encOk "tmp0"

/-- C10: a `KeyboardInterrupt` delivered inside one worker's encode is
swallowed by `_transcode_file`: the job returns as a normal success with
no entry appended and nothing reported to the `error_callback`; with no
encoder failing, the pool is never terminated, the completion callback
fires once per dispatched job (the interrupted one included), and the
orchestrator proceeds to the passthrough copy and the verification as if
the job had completed — only the successful encodes contribute entries. -/
theorem interrupted_job_counts_as_success (onDisk : RelPath → Bool)
    (opts : CC.ProgramOptions) (input_file out j : RelPath) (archiveFiles : List RelPath)
    (enc : RelPath → CC.EncodeResult) (tmpd : String)
    (hres : CC.get_output_filename onDisk opts input_file = .ok out)
    (hj : enc j = CC.EncodeResult.interrupted)
    (hnf : ∀ f, enc f ≠ CC.EncodeResult.nonzeroExit) :
    CC.transcode_file enc j = ⟨none, false⟩
  ∧ (CC.run onDisk opts input_file archiveFiles enc tmpd).terminated = false
  ∧ (CC.run onDisk opts input_file archiveFiles enc tmpd).progressUpdates
      = (CC.imageFiles (CC.clean_tmp_dir archiveFiles)).length
  ∧ (CC.run onDisk opts input_file archiveFiles enc tmpd).copyRan = true
  ∧ (CC.run onDisk opts input_file archiveFiles enc tmpd).checkRan = true
  ∧ (CC.run onDisk opts input_file archiveFiles enc tmpd).zipEntries
      = ((CC.imageFiles (CC.clean_tmp_dir archiveFiles)).filter
          (fun f => enc f == CC.EncodeResult.success)).map (withSuffix · ".jxl")
        ++ CC.copy_files (CC.clean_tmp_dir archiveFiles) := by
  have hterm : (CC.poolPhase enc (CC.imageFiles (CC.clean_tmp_dir archiveFiles))).terminated
      = false := by
    rw [poolPhase_terminated, List.any_eq_false]
    intro f _
    simpa using hnf f
  have hprog := poolPhase_progress enc (CC.imageFiles (CC.clean_tmp_dir archiveFiles))
    fun f _ => hnf f
  have hpe := poolPhase_entries enc (CC.imageFiles (CC.clean_tmp_dir archiveFiles))
  refine ⟨by simp [CC.transcode_file, hj], ?_⟩
  cases hc : CC.check_transcoding (CC.clean_tmp_dir archiveFiles)
      ((CC.poolPhase enc (CC.imageFiles (CC.clean_tmp_dir archiveFiles))).entries
        ++ CC.copy_files (CC.clean_tmp_dir archiveFiles)) <;>
    · rw [hpe] at hc
      simp [CC.run, hres, hc, hterm, hprog, hpe]

/-- C10 witness: with `a.jpg` interrupted and `b.jpg` succeeding, the pool
is not terminated and both callbacks still fire. -/
theorem interrupted_job_counts_as_success_witness :
    (CC.run (fun _ => false) optsPlain inpA [aJpg, bJpg, notesTxt] encIntA "tmp0").terminated
        = false
  ∧ (CC.run (fun _ => false) optsPlain inpA [aJpg, bJpg, notesTxt] encIntA "tmp0").progressUpdates
      = (CC.imageFiles (CC.clean_tmp_dir [aJpg, bJpg, notesTxt])).length :=
  ⟨(interrupted_job_counts_as_success (fun _ => false) optsPlain inpA ⟨["out"], "A", ".cbz"⟩
      aJpg [aJpg, bJpg, notesTxt] encIntA "tmp0" rfl (by decide)
      (fun f => by
        unfold encIntA
        by_cases h : f = aJpg <;> simp [h])).2.1,
    (interrupted_job_counts_as_success (fun _ => false) optsPlain inpA ⟨["out"], "A", ".cbz"⟩
      aJpg [aJpg, bJpg, notesTxt] encIntA "tmp0" rfl (by decide)
      (fun f => by
        unfold encIntA
        by_cases h : f = aJpg <;> simp [h])).2.2.1⟩
